import Mathlib

/-!
Verification development for the RSS feed ingestion and deduplication engine
of the RSSSUMMRY3 repository (`rss_manager.py`).

The Python source is embedded shallowly:
* `hashlib.md5(...).hexdigest()` on UTF-8 bytes is embedded as a full,
  executable MD5 implementation (`md5hex`);
* the processed-articles dictionary (`self.processed_articles`, a JSON
  object mapping fingerprint → ISO timestamp string) is embedded as an
  association list with Python-dict insert/lookup semantics;
* the network (`aiohttp` responses) is an explicit input (`NetResult`),
  and `feedparser.parse` — which by its documented contract always returns
  a `FeedParserDict` and never raises (malformed input yields a "bozo"
  feed object, typically with an empty entry list) — is an explicit
  function parameter `parse : String → Feed`;
* `datetime.now()` is an explicit parameter; `datetime.isoformat` /
  `datetime.fromisoformat` are explicit function parameters where needed,
  with time measured in integer microseconds (Python datetime resolution).
-/

set_option autoImplicit false

namespace RSSSummary

/-! ## MD5 (model of `hashlib.md5`) -/

/-- UTF-8 encoding of a single Unicode code point, as a list of bytes. -/
def utf8EncodeChar (c : Nat) : List Nat :=
  if c < 0x80 then [c]
  else if c < 0x800 then
    [0xc0 ||| (c >>> 6), 0x80 ||| (c &&& 0x3f)]
  else if c < 0x10000 then
    [0xe0 ||| (c >>> 12), 0x80 ||| ((c >>> 6) &&& 0x3f), 0x80 ||| (c &&& 0x3f)]
  else
    [0xf0 ||| (c >>> 18), 0x80 ||| ((c >>> 12) &&& 0x3f),
     0x80 ||| ((c >>> 6) &&& 0x3f), 0x80 ||| (c &&& 0x3f)]

/-- UTF-8 encoding of a string (model of Python's `str.encode('utf-8')`). -/
def utf8Bytes (s : String) : List Nat :=
  s.data.foldr (fun c acc => utf8EncodeChar c.toNat ++ acc) []

/-- The 64 MD5 round constants `K[i] = floor(2^32 * |sin(i+1)|)` (RFC 1321). -/
def md5K : List Nat :=
  [0xd76aa478, 0xe8c7b756, 0x242070db, 0xc1bdceee, 0xf57c0faf, 0x4787c62a, 0xa8304613, 0xfd469501,
   0x698098d8, 0x8b44f7af, 0xffff5bb1, 0x895cd7be, 0x6b901122, 0xfd987193, 0xa679438e, 0x49b40821,
   0xf61e2562, 0xc040b340, 0x265e5a51, 0xe9b6c7aa, 0xd62f105d, 0x2441453, 0xd8a1e681, 0xe7d3fbc8,
   0x21e1cde6, 0xc33707d6, 0xf4d50d87, 0x455a14ed, 0xa9e3e905, 0xfcefa3f8, 0x676f02d9, 0x8d2a4c8a,
   0xfffa3942, 0x8771f681, 0x6d9d6122, 0xfde5380c, 0xa4beea44, 0x4bdecfa9, 0xf6bb4b60, 0xbebfbc70,
   0x289b7ec6, 0xeaa127fa, 0xd4ef3085, 0x4881d05, 0xd9d4d039, 0xe6db99e5, 0x1fa27cf8, 0xc4ac5665,
   0xf4292244, 0x432aff97, 0xab9423a7, 0xfc93a039, 0x655b59c3, 0x8f0ccc92, 0xffeff47d, 0x85845dd1,
   0x6fa87e4f, 0xfe2ce6e0, 0xa3014314, 0x4e0811a1, 0xf7537e82, 0xbd3af235, 0x2ad7d2bb, 0xeb86d391]

/-- The MD5 per-round left-rotation amounts (RFC 1321). -/
def md5S : List Nat :=
  [7, 12, 17, 22, 7, 12, 17, 22, 7, 12, 17, 22, 7, 12, 17, 22,
   5, 9, 14, 20, 5, 9, 14, 20, 5, 9, 14, 20, 5, 9, 14, 20,
   4, 11, 16, 23, 4, 11, 16, 23, 4, 11, 16, 23, 4, 11, 16, 23,
   6, 10, 15, 21, 6, 10, 15, 21, 6, 10, 15, 21, 6, 10, 15, 21]

/-- 32-bit left rotation. -/
def rotl32 (x n : Nat) : Nat :=
  ((x <<< n) ||| (x >>> (32 - n))) &&& 0xffffffff

/-- The four 32-bit MD5 chaining values. -/
structure MD5State where
  a : Nat
  b : Nat
  c : Nat
  d : Nat
deriving DecidableEq

/-- One MD5 round `i` (0 ≤ i < 64) on message words `m`. -/
def md5Step (m : List Nat) (st : MD5State) (i : Nat) : MD5State :=
  let fg : Nat × Nat :=
    if i < 16 then ((st.b &&& st.c) ||| ((st.b ^^^ 0xffffffff) &&& st.d), i)
    else if i < 32 then ((st.d &&& st.b) ||| ((st.d ^^^ 0xffffffff) &&& st.c), (5 * i + 1) % 16)
    else if i < 48 then (st.b ^^^ st.c ^^^ st.d, (3 * i + 5) % 16)
    else (st.c ^^^ (st.b ||| (st.d ^^^ 0xffffffff)), (7 * i) % 16)
  let f := (fg.1 + st.a + md5K.getD i 0 + m.getD fg.2 0) % 4294967296
  { a := st.d, b := (st.b + rotl32 f (md5S.getD i 0)) % 4294967296, c := st.b, d := st.c }

/-- The sixteen little-endian 32-bit words of one 64-byte block. -/
def md5Words (block : List Nat) : List Nat :=
  (List.range 16).map fun g =>
    block.getD (4 * g) 0 + block.getD (4 * g + 1) 0 * 256 +
      block.getD (4 * g + 2) 0 * 65536 + block.getD (4 * g + 3) 0 * 16777216

/-- MD5 compression of one 64-byte block into the chaining state. -/
def md5Block (st : MD5State) (block : List Nat) : MD5State :=
  let m := md5Words block
  let r := (List.range 64).foldl (md5Step m) st
  { a := (st.a + r.a) % 4294967296, b := (st.b + r.b) % 4294967296,
    c := (st.c + r.c) % 4294967296, d := (st.d + r.d) % 4294967296 }

/-- MD5 padding: append `0x80`, zero-pad to 56 mod 64, then the original
bit length as a 64-bit little-endian quantity. -/
def md5Pad (msg : List Nat) : List Nat :=
  let bitLen := (msg.length * 8) % 18446744073709551616
  let zeros := (119 - msg.length % 64) % 64
  msg ++ [0x80] ++ List.replicate zeros 0 ++
    (List.range 8).map fun i => (bitLen >>> (8 * i)) &&& 255

/-- Split a byte list into successive 64-byte chunks. -/
def chunks64 (l : List Nat) : List (List Nat) :=
  match l with
  | [] => []
  | x :: xs => ((x :: xs).take 64) :: chunks64 (xs.drop 63)
termination_by l.length
decreasing_by
  simp only [List.length_drop, List.length_cons]
  omega

/-- Lower-case hexadecimal digit. -/
def hexDigitChar (n : Nat) : Char :=
  if n < 10 then Char.ofNat (48 + n) else Char.ofNat (87 + n)

/-- Two lower-case hex digits of one byte. -/
def byteToHex (b : Nat) : List Char :=
  [hexDigitChar ((b >>> 4) &&& 15), hexDigitChar (b &&& 15)]

/-- Hex rendering of a 32-bit word, least significant byte first. -/
def word32ToHexLE (w : Nat) : List Char :=
  byteToHex (w &&& 255) ++ byteToHex ((w >>> 8) &&& 255) ++
    byteToHex ((w >>> 16) &&& 255) ++ byteToHex ((w >>> 24) &&& 255)

/-- `md5hex s` is Python's `hashlib.md5(s.encode('utf-8')).hexdigest()`. -/
def md5hex (s : String) : String :=
  let blocks := chunks64 (md5Pad (utf8Bytes s))
  let st := blocks.foldl md5Block
    { a := 0x67452301, b := 0xefcdab89, c := 0x98badcfe, d := 0x10325476 }
  ⟨word32ToHexLE st.a ++ word32ToHexLE st.b ++ word32ToHexLE st.c ++ word32ToHexLE st.d⟩

/-! ## Data model -/

/-- One feed entry as seen through `entry.get(...)` in the source: each field
is `some v` when the corresponding key is present in the `feedparser` entry
dictionary and `none` when it is absent. -/
structure Entry where
  title : Option String
  link : Option String
  description : Option String
  summary : Option String
  published : Option String
  updated : Option String
deriving DecidableEq

/-- A parsed feed (`feedparser.FeedParserDict`): the channel-level title
(`feed.feed.get('title', ...)`) and the entry list (`feed.entries`). -/
structure Feed where
  ftitle : Option String
  entries : List Entry
deriving DecidableEq

/-- The article dictionary built in `get_new_articles` (lines 91–98). -/
structure Article where
  title : String
  link : String
  description : String
  published : String
  feed_title : String
  feed_url : String
deriving DecidableEq

/-- Outcome of the HTTP GET inside `fetch_feed`: either the request raised
(network error, timeout, ...) or it produced a status code and a body. -/
inductive NetResult where
  | failure (msg : String)
  | response (status : Nat) (body : String)
deriving DecidableEq

/-- The per-feed configuration record, as read by `check_all_feeds` via
`feed_data.get('url')`: `none` models a missing `url` key. -/
structure FeedData where
  url : Option String
deriving DecidableEq

/-- `self.processed_articles`: a JSON object mapping article fingerprint to
ISO timestamp string, embedded as an association list in insertion order
(Python dicts preserve insertion order). -/
abbrev PDict := List (String × String)

/-- Python's `key in dict`. -/
def dictContains (st : PDict) (k : String) : Bool :=
  st.any fun p => p.1 == k

/-- Python's `dict[key] = value`: update in place when the key is present,
otherwise append at the end. -/
def dictInsert (st : PDict) (k v : String) : PDict :=
  if st.any (fun p => p.1 == k) then st.map fun p => if p.1 == k then (k, v) else p
  else st ++ [(k, v)]

/-! ## RSSManager operations -/

/-- `RSSManager.generate_article_hash` (lines 44–47):
`hashlib.md5(f"{title}|{link}".encode('utf-8')).hexdigest()`. -/
def generate_article_hash (title link : String) : String :=
  md5hex (title ++ "|" ++ link)

/-- `RSSManager.is_article_processed` (lines 49–52). -/
def is_article_processed (st : PDict) (title link : String) : Bool :=
  dictContains st (generate_article_hash title link)

/-- `RSSManager.mark_article_processed` (lines 54–58): stores the current
time's `isoformat()` string under the fingerprint. (Persisting to disk is
modelled by returning the new dictionary.) -/
def mark_article_processed (st : PDict) (title link : String) (nowIso : String) : PDict :=
  dictInsert st (generate_article_hash title link) nowIso

/-- `RSSManager.fetch_feed` (lines 60–73). The HTTP outcome is the explicit
input `net`; `parse` models `feedparser.parse`, which always returns a
`FeedParserDict` and never raises (malformed bodies yield a bozo feed
object). A raised network exception is caught and yields `none`; a non-200
status yields `none`; a 200 response yields `some (parse body)`. -/
def fetch_feed (parse : String → Feed) (net : NetResult) : Option Feed :=
  match net with
  | NetResult.response status body => if status == 200 then some (parse body) else none
  | NetResult.failure _ => none

/-- `entry.get('title', 'No Title')` (line 84). -/
def entryTitle (e : Entry) : String := e.title.getD "No Title"

/-- `entry.get('link', '')` (line 85). -/
def entryLink (e : Entry) : String := e.link.getD ""

/-- `entry.get('description', entry.get('summary', ''))` (line 86). -/
def entryDescription (e : Entry) : String := e.description.getD (e.summary.getD "")

/-- `entry.get('published', entry.get('updated', ''))` (line 87). -/
def entryPublished (e : Entry) : String := e.published.getD (e.updated.getD "")

/-- The article dictionary built at lines 91–98 for one entry. -/
def mkArticle (ftitle : Option String) (feed_url : String) (e : Entry) : Article :=
  { title := entryTitle e, link := entryLink e, description := entryDescription e,
    published := entryPublished e, feed_title := ftitle.getD "Unknown Feed",
    feed_url := feed_url }

/-- The entry-processing loop of `get_new_articles` (lines 83–101), over the
already-truncated entry list. Besides the collected new articles and the
updated dictionary, the third component instruments the loop with the exact
list of fingerprints passed to `mark_article_processed`, in call order; it
influences neither of the other two components. -/
def processEntries (ftitle : Option String) (feed_url nowIso : String) :
    List Entry → PDict → List Article × PDict × List String
  | [], st => ([], st, [])
  | e :: rest, st =>
    if is_article_processed st (entryTitle e) (entryLink e) then
      processEntries ftitle feed_url nowIso rest st
    else
      let st1 := mark_article_processed st (entryTitle e) (entryLink e) nowIso
      let r := processEntries ftitle feed_url nowIso rest st1
      (mkArticle ftitle feed_url e :: r.1, r.2.1,
        generate_article_hash (entryTitle e) (entryLink e) :: r.2.2)

/-- `RSSManager.get_new_articles` (lines 75–102): fetch, then process the
first `max_articles` entries (`feed.entries[:max_articles]`); a falsy fetch
result contributes nothing. -/
def get_new_articles (parse : String → Feed) (net : String → NetResult) (nowIso : String)
    (feed_url : String) (max_articles : Nat) (st : PDict) : List Article × PDict :=
  match fetch_feed parse (net feed_url) with
  | none => ([], st)
  | some feed =>
    let r := processEntries feed.ftitle feed_url nowIso (feed.entries.take max_articles) st
    (r.1, r.2.1)

/-- The task-building loop of `check_all_feeds` (lines 109–114): one task per
feed whose `url` is present and truthy (Python's `if feed_url:` also skips
the empty string). -/
def feedsToTasks (feeds : List (String × FeedData)) : List (String × String) :=
  feeds.filterMap fun p =>
    match p.2.url with
    | some u => if u == "" then none else some (p.1, u)
    | none => none

/-- The await loop of `check_all_feeds` (lines 117–123), generic in the task
body `run`: each task is awaited in order under `try/except`; a raised
exception (`Except.error`) is logged and skipped; an `articles` result is
added to the mapping only when it is non-empty (`if articles:`). `run`
returns the dictionary state alongside its outcome, since a failing task
may still have mutated the store before raising. -/
def checkLoop (run : String → PDict → Except String (List Article) × PDict) :
    List (String × String) → PDict → List (String × List Article) × PDict
  | [], st => ([], st)
  | (fid, url) :: rest, st =>
    let r := run url st
    let tl := checkLoop run rest r.2
    match r.1 with
    | Except.error _ => tl
    | Except.ok articles =>
      (if articles.isEmpty then tl.1 else (fid, articles) :: tl.1, tl.2)

/-- The same loop without the non-emptiness filter: every successfully
awaited task's article list is recorded. Used to state which feeds
"produced" articles this cycle. -/
def rawLoop (run : String → PDict → Except String (List Article) × PDict) :
    List (String × String) → PDict → List (String × List Article) × PDict
  | [], st => ([], st)
  | (fid, url) :: rest, st =>
    let r := run url st
    let tl := rawLoop run rest r.2
    match r.1 with
    | Except.error _ => tl
    | Except.ok articles => ((fid, articles) :: tl.1, tl.2)

/-- The actual task body used by `check_all_feeds`: `get_new_articles` with
the default cap of 10; it is total, so it never produces `Except.error`. -/
def pureRun (parse : String → Feed) (net : String → NetResult) (nowIso : String)
    (url : String) (st : PDict) : Except String (List Article) × PDict :=
  let r := get_new_articles parse net nowIso url 10 st
  (Except.ok r.1, r.2)

/-- `RSSManager.check_all_feeds` (lines 104–125). The coroutines created at
line 113 are bare coroutines awaited one by one at line 119, so their
bodies execute sequentially in task order; the dictionary state threads
through them accordingly. -/
def check_all_feeds (parse : String → Feed) (net : String → NetResult) (nowIso : String)
    (feeds : List (String × FeedData)) (st : PDict) : List (String × List Article) × PDict :=
  checkLoop (pureRun parse net nowIso) (feedsToTasks feeds) st

/-- `timedelta(days=days)` in microseconds (Python datetime resolution). -/
def timedeltaDays (days : Int) : Int := days * 86400000000

/-- `RSSManager.cleanup_old_processed_articles` (lines 169–187). `parseIso`
models `datetime.fromisoformat` (with datetimes as microsecond counts);
`none` models a raised `ValueError`, whose entry is skipped. Mirroring the
source: `cleaned_articles` keeps entries strictly newer than the cutoff;
then `self.processed_articles = cleaned_articles`; then `removed_count` is
computed from the already-reassigned `self.processed_articles`. -/
def cleanup_old_processed_articles (parseIso : String → Option Int) (now : Int)
    (days : Int) (st : PDict) : PDict × Int :=
  let cutoff := now - timedeltaDays days
  let cleaned_articles := st.filter fun p =>
    match parseIso p.2 with
    | some d => decide (cutoff < d)
    | none => false
  let processed_articles := cleaned_articles
  let removed_count : Int := (processed_articles.length : Int) - (cleaned_articles.length : Int)
  (processed_articles, removed_count)

/-- The fingerprint computed for one entry during processing: the hash of the
title and link fields after their `get` fallbacks (lines 84–85 then 51). -/
def entryHash (e : Entry) : String :=
  generate_article_hash (entryTitle e) (entryLink e)

/-- All fingerprints of the first ten entries of the feed behind `url` (if
any) are recorded in `st`. This is the state condition that makes a repeat
`get_new_articles` pass on `url` a no-op. -/
def feedCovered (parse : String → Feed) (net : String → NetResult) (url : String)
    (st : PDict) : Prop :=
  ∀ feed, fetch_feed parse (net url) = some feed →
    ∀ e ∈ feed.entries.take 10, dictContains st (entryHash e) = true

/-- What `feedparser.parse` returns on a body that is not a feed: a bozo
`FeedParserDict` with an empty entry list (never `None`, never a raised
exception). -/
def bozoParse : String → Feed := fun _ => { ftitle := none, entries := [] }

/-- Concrete article used by witness instances. -/
def wArticle : Article :=
  { title := "A", link := "http://x/1", description := "", published := "",
    feed_title := "F", feed_url := "u" }

/-- Concrete task body for the failure-isolation witness: the task for URL
"bad" raises, every other task returns one article. -/
def wRun : String → PDict → Except String (List Article) × PDict :=
  fun url st => if url == "bad" then (Except.error "boom", st) else (Except.ok [wArticle], st)

/-- Concrete entry with some fields present and others missing. -/
def wEntry1 : Entry :=
  { title := some "Hello", link := some "http://x/1", description := none,
    summary := some "s1", published := none, updated := some "u1" }

/-- Concrete entry with every `get` falling through differently. -/
def wEntry2 : Entry :=
  { title := none, link := none, description := some "d2", summary := some "s2",
    published := some "p2", updated := none }

/-- Concrete feed used by witness instances. -/
def wFeed : Feed := { ftitle := some "My Feed", entries := [wEntry1, wEntry2] }

/-- Parser that returns `wFeed` for every body. -/
def wParse : String → Feed := fun _ => wFeed

/-- Network on which every URL answers 200. -/
def wNet : String → NetResult := fun _ => NetResult.response 200 ""

/-- Concrete feed registry: one usable URL, one missing URL, one empty URL. -/
def wFeeds : List (String × FeedData) :=
  [("good", { url := some "http://x" }), ("bad", { url := none }),
   ("empty", { url := some "" })]

/-- Two concrete entries equal in title and link but different in
description, summary, published and updated. -/
def wEntryD1 : Entry :=
  { title := some "T", link := some "L", description := some "d1",
    summary := none, published := some "2024-01-01", updated := none }

/-- See `wEntryD1`. -/
def wEntryD2 : Entry :=
  { title := some "T", link := some "L", description := some "d2",
    summary := some "s", published := some "2025-06-05", updated := some "u" }

/-- Parse a run of decimal digits (used by `decimalToInt`). -/
def parseNatChars : List Char → Nat → Option Nat
  | [], acc => some acc
  | c :: cs, acc =>
    if 48 ≤ c.toNat ∧ c.toNat ≤ 57 then parseNatChars cs (acc * 10 + (c.toNat - 48))
    else none

/-- A concrete instance of the timestamp-parsing parameter `parseIso` for
witness and counterexample instances: timestamps rendered as decimal
microsecond counts; any non-digit makes the parse fail (the model of a
raised `ValueError`). -/
def decimalToInt (s : String) : Option Int :=
  match s.data with
  | [] => none
  | c :: cs => (parseNatChars (c :: cs) 0).map Int.ofNat

/-! ## Dictionary lemmas -/

theorem key_after_update (k v : String) (p : String × String) :
    ((if p.1 == k then (k, v) else p).1) = p.1 := by
  by_cases h : p.1 == k
  · simp only [h, if_true]
    exact (eq_of_beq h).symm
  · simp [h]

theorem dictContains_map_update (st : PDict) (k v k' : String) :
    dictContains (st.map fun p => if p.1 == k then (k, v) else p) k'
      = dictContains st k' := by
  unfold dictContains
  induction st with
  | nil => rfl
  | cons hd tl ih =>
    simp only [List.map_cons, List.any_cons, ih, key_after_update]

theorem dictContains_dictInsert (st : PDict) (k v k' : String) :
    dictContains (dictInsert st k v) k' = (dictContains st k' || (k == k')) := by
  unfold dictInsert
  by_cases hmem : st.any (fun p => p.1 == k)
  · simp only [hmem, if_true]
    rw [dictContains_map_update]
    by_cases hkk : k == k'
    · have hk : k = k' := eq_of_beq hkk
      subst hk
      simp [dictContains, hmem]
    · simp [hkk]
  · simp only [Bool.not_eq_true] at hmem
    simp only [hmem, Bool.false_eq_true, if_false]
    unfold dictContains
    simp [List.any_append]

theorem dictContains_mono_insert (st : PDict) (k v k' : String)
    (h : dictContains st k' = true) : dictContains (dictInsert st k v) k' = true := by
  simp [dictContains_dictInsert, h]

theorem dictContains_insert_self (st : PDict) (k v : String) :
    dictContains (dictInsert st k v) k = true := by
  simp [dictContains_dictInsert]

/-! ## Entry-processing lemmas -/

theorem is_article_processed_entry (st : PDict) (e : Entry) :
    is_article_processed st (entryTitle e) (entryLink e)
      = dictContains st (entryHash e) := rfl

theorem dictContains_mono_mark (st : PDict) (t l now k : String)
    (h : dictContains st k = true) :
    dictContains (mark_article_processed st t l now) k = true :=
  dictContains_mono_insert st _ now k h

theorem dictContains_mark_self (st : PDict) (t l now : String) :
    dictContains (mark_article_processed st t l now) (generate_article_hash t l) = true :=
  dictContains_insert_self st _ now

theorem processEntries_state_mono (ft : Option String) (url now : String) :
    ∀ (entries : List Entry) (st : PDict) (k : String),
      dictContains st k = true →
      dictContains (processEntries ft url now entries st).2.1 k = true := by
  intro entries
  induction entries with
  | nil =>
    intro st k h
    simpa [processEntries] using h
  | cons e0 rest ih =>
    intro st k h
    by_cases hp : is_article_processed st (entryTitle e0) (entryLink e0)
    · simp only [processEntries, hp, if_true]
      exact ih st k h
    · simp only [processEntries, hp, Bool.false_eq_true, if_false]
      exact ih _ k (dictContains_mono_mark st _ _ now k h)

theorem processEntries_covers (ft : Option String) (url now : String) :
    ∀ (entries : List Entry) (st : PDict) (e : Entry), e ∈ entries →
      dictContains (processEntries ft url now entries st).2.1 (entryHash e) = true := by
  intro entries
  induction entries with
  | nil =>
    intro st e he
    exact absurd he (List.not_mem_nil e)
  | cons e0 rest ih =>
    intro st e he
    rcases List.mem_cons.mp he with rfl | hmem
    · by_cases hp : is_article_processed st (entryTitle e) (entryLink e)
      · simp only [processEntries, hp, if_true]
        exact processEntries_state_mono ft url now rest st _ hp
      · simp only [processEntries, hp, Bool.false_eq_true, if_false]
        exact processEntries_state_mono ft url now rest _ _
          (dictContains_mark_self st (entryTitle e) (entryLink e) now)
    · by_cases hp : is_article_processed st (entryTitle e0) (entryLink e0)
      · simp only [processEntries, hp, if_true]
        exact ih st e hmem
      · simp only [processEntries, hp, Bool.false_eq_true, if_false]
        exact ih _ e hmem

theorem processEntries_noop (ft : Option String) (url now : String) :
    ∀ (entries : List Entry) (st : PDict),
      (∀ e ∈ entries, dictContains st (entryHash e) = true) →
      processEntries ft url now entries st = ([], st, []) := by
  intro entries
  induction entries with
  | nil => intro st _; rfl
  | cons e0 rest ih =>
    intro st h
    have hp : is_article_processed st (entryTitle e0) (entryLink e0) = true :=
      h e0 (List.mem_cons_self e0 rest)
    simp only [processEntries, hp, if_true]
    exact ih st fun e he => h e (List.mem_cons_of_mem e0 he)

theorem processEntries_marks_fresh (ft : Option String) (url now : String) :
    ∀ (entries : List Entry) (st : PDict) (k : String),
      k ∈ (processEntries ft url now entries st).2.2 → dictContains st k = false := by
  intro entries
  induction entries with
  | nil =>
    intro st k hm
    simp [processEntries] at hm
  | cons e0 rest ih =>
    intro st k hm
    by_cases hp : is_article_processed st (entryTitle e0) (entryLink e0)
    · exact ih st k (by simpa [processEntries, hp] using hm)
    · simp only [processEntries, hp, Bool.false_eq_true, if_false] at hm
      rcases List.mem_cons.mp hm with rfl | hmem
      · simpa [is_article_processed_entry, entryHash] using hp
      · have h1 := ih _ k hmem
        cases hcase : dictContains st k with
        | false => rfl
        | true =>
          have h2 := dictContains_mono_mark st (entryTitle e0) (entryLink e0) now k hcase
          rw [h1] at h2
          exact absurd h2 (by decide)

theorem processEntries_marks_nodup (ft : Option String) (url now : String) :
    ∀ (entries : List Entry) (st : PDict),
      ((processEntries ft url now entries st).2.2).Nodup := by
  intro entries
  induction entries with
  | nil => intro st; simp [processEntries]
  | cons e0 rest ih =>
    intro st
    by_cases hp : is_article_processed st (entryTitle e0) (entryLink e0)
    · simpa [processEntries, hp] using ih st
    · simp only [processEntries, hp, Bool.false_eq_true, if_false]
      refine List.nodup_cons.mpr ⟨?_, ih _⟩
      intro hmem
      have hfresh := processEntries_marks_fresh ft url now rest _ _ hmem
      have hself := dictContains_mark_self st (entryTitle e0) (entryLink e0) now
      rw [hfresh] at hself
      exact absurd hself (by decide)

/-! ## Per-feed fetch/processing lemmas -/

theorem get_new_articles_none (parse : String → Feed) (net : String → NetResult)
    (now url : String) (max : Nat) (st : PDict)
    (h : fetch_feed parse (net url) = none) :
    get_new_articles parse net now url max st = ([], st) := by
  simp [get_new_articles, h]

theorem get_new_articles_some (parse : String → Feed) (net : String → NetResult)
    (now url : String) (max : Nat) (st : PDict) (feed : Feed)
    (h : fetch_feed parse (net url) = some feed) :
    get_new_articles parse net now url max st =
      ((processEntries feed.ftitle url now (feed.entries.take max) st).1,
       (processEntries feed.ftitle url now (feed.entries.take max) st).2.1) := by
  simp [get_new_articles, h]

theorem get_new_articles_state_mono (parse : String → Feed) (net : String → NetResult)
    (now url : String) (max : Nat) (st : PDict) (k : String)
    (h : dictContains st k = true) :
    dictContains (get_new_articles parse net now url max st).2 k = true := by
  cases hf : fetch_feed parse (net url) with
  | none => simpa [get_new_articles, hf] using h
  | some feed =>
    simp only [get_new_articles, hf]
    exact processEntries_state_mono feed.ftitle url now _ st k h

theorem get_new_articles_covers (parse : String → Feed) (net : String → NetResult)
    (now url : String) (max : Nat) (st : PDict) (feed : Feed)
    (h : fetch_feed parse (net url) = some feed) :
    ∀ e ∈ feed.entries.take max,
      dictContains (get_new_articles parse net now url max st).2 (entryHash e) = true := by
  intro e he
  simp only [get_new_articles, h]
  exact processEntries_covers feed.ftitle url now _ st e he

theorem get_new_articles_noop (parse : String → Feed) (net : String → NetResult)
    (now url : String) (max : Nat) (st : PDict) (feed : Feed)
    (h : fetch_feed parse (net url) = some feed)
    (hcov : ∀ e ∈ feed.entries.take max, dictContains st (entryHash e) = true) :
    get_new_articles parse net now url max st = ([], st) := by
  simp [get_new_articles, h,
    processEntries_noop feed.ftitle url now (feed.entries.take max) st hcov]

/-! ## Check-cycle loop lemmas -/

theorem checkLoop_pure_state_mono (parse : String → Feed) (net : String → NetResult)
    (now : String) :
    ∀ (tasks : List (String × String)) (st : PDict) (k : String),
      dictContains st k = true →
      dictContains (checkLoop (pureRun parse net now) tasks st).2 k = true := by
  intro tasks
  induction tasks with
  | nil =>
    intro st k h
    simpa [checkLoop] using h
  | cons t rest ih =>
    intro st k h
    obtain ⟨fid, url⟩ := t
    simp only [checkLoop, pureRun]
    exact ih _ k (get_new_articles_state_mono parse net now url 10 st k h)

theorem checkLoop_pure_covers (parse : String → Feed) (net : String → NetResult)
    (now : String) :
    ∀ (tasks : List (String × String)) (st : PDict) (fid url : String),
      (fid, url) ∈ tasks →
      feedCovered parse net url (checkLoop (pureRun parse net now) tasks st).2 := by
  intro tasks
  induction tasks with
  | nil =>
    intro st fid url h
    exact absurd h (List.not_mem_nil _)
  | cons t rest ih =>
    intro st fid url h
    obtain ⟨fid0, url0⟩ := t
    rcases List.mem_cons.mp h with heq | hmem
    · cases heq
      intro feed hf e he
      simp only [checkLoop, pureRun]
      exact checkLoop_pure_state_mono parse net now rest _ _
        (get_new_articles_covers parse net now url 10 st feed hf e he)
    · intro feed hf e he
      simp only [checkLoop, pureRun]
      exact ih _ fid url hmem feed hf e he

theorem checkLoop_pure_noop (parse : String → Feed) (net : String → NetResult)
    (now : String) :
    ∀ (tasks : List (String × String)) (st : PDict),
      (∀ fid url, (fid, url) ∈ tasks → feedCovered parse net url st) →
      checkLoop (pureRun parse net now) tasks st = ([], st) := by
  intro tasks
  induction tasks with
  | nil => intro st _; rfl
  | cons t rest ih =>
    intro st h
    obtain ⟨fid0, url0⟩ := t
    have hcov := h fid0 url0 (List.mem_cons_self _ _)
    have hga : get_new_articles parse net now url0 10 st = ([], st) := by
      cases hf : fetch_feed parse (net url0) with
      | none => exact get_new_articles_none parse net now url0 10 st hf
      | some feed => exact get_new_articles_noop parse net now url0 10 st feed hf (hcov feed hf)
    have htl := ih st fun fid url hm => h fid url (List.mem_cons_of_mem _ hm)
    simp [checkLoop, pureRun, hga, htl]

theorem checkLoop_append (run : String → PDict → Except String (List Article) × PDict) :
    ∀ (l1 l2 : List (String × String)) (st : PDict),
      checkLoop run (l1 ++ l2) st =
        ((checkLoop run l1 st).1 ++ (checkLoop run l2 (checkLoop run l1 st).2).1,
         (checkLoop run l2 (checkLoop run l1 st).2).2) := by
  intro l1
  induction l1 with
  | nil => intro l2 st; simp [checkLoop]
  | cons t rest ih =>
    intro l2 st
    obtain ⟨fid, url⟩ := t
    cases hm : (run url st).1 with
    | error msg => simp [checkLoop, hm, ih]
    | ok arts =>
      by_cases he : arts.isEmpty
      · simp [checkLoop, hm, he, ih]
      · simp [checkLoop, hm, he, ih]

theorem checkLoop_eq_filter (run : String → PDict → Except String (List Article) × PDict) :
    ∀ (tasks : List (String × String)) (st : PDict),
      (checkLoop run tasks st).1
          = (rawLoop run tasks st).1.filter (fun p => !p.2.isEmpty)
        ∧ (checkLoop run tasks st).2 = (rawLoop run tasks st).2 := by
  intro tasks
  induction tasks with
  | nil => intro st; exact ⟨rfl, rfl⟩
  | cons t rest ih =>
    intro st
    obtain ⟨fid, url⟩ := t
    cases hm : (run url st).1 with
    | error msg =>
      simpa [checkLoop, rawLoop, hm] using ih (run url st).2
    | ok arts =>
      by_cases he : arts.isEmpty
      · constructor
        · simp [checkLoop, rawLoop, hm, he, (ih _).1]
        · simp [checkLoop, rawLoop, hm, (ih _).2]
      · constructor
        · simp [checkLoop, rawLoop, hm, he, (ih _).1]
        · simp [checkLoop, rawLoop, hm, (ih _).2]

theorem checkLoop_keys (run : String → PDict → Except String (List Article) × PDict) :
    ∀ (tasks : List (String × String)) (st : PDict) (p : String × List Article),
      p ∈ (checkLoop run tasks st).1 → p.1 ∈ tasks.map Prod.fst := by
  intro tasks
  induction tasks with
  | nil =>
    intro st p h
    simp [checkLoop] at h
  | cons t rest ih =>
    intro st p h
    obtain ⟨fid, url⟩ := t
    cases hm : (run url st).1 with
    | error msg =>
      rw [show checkLoop run ((fid, url) :: rest) st
          = checkLoop run rest (run url st).2 by simp [checkLoop, hm]] at h
      exact List.mem_cons_of_mem _ (ih _ p h)
    | ok arts =>
      by_cases he : arts.isEmpty
      · rw [show (checkLoop run ((fid, url) :: rest) st).1
            = (checkLoop run rest (run url st).2).1 by simp [checkLoop, hm, he]] at h
        exact List.mem_cons_of_mem _ (ih _ p h)
      · rw [show (checkLoop run ((fid, url) :: rest) st).1
            = (fid, arts) :: (checkLoop run rest (run url st).2).1
            by simp [checkLoop, hm, he]] at h
        rcases List.mem_cons.mp h with rfl | hmem
        · exact List.mem_cons_self _ _
        · exact List.mem_cons_of_mem _ (ih _ p hmem)

theorem mem_feedsToTasks (feeds : List (String × FeedData)) (fid u : String) :
    (fid, u) ∈ feedsToTasks feeds ↔
      ∃ fd, (fid, fd) ∈ feeds ∧ fd.url = some u ∧ u ≠ "" := by
  unfold feedsToTasks
  rw [List.mem_filterMap]
  constructor
  · rintro ⟨p, hp, hfp⟩
    cases hurl : p.2.url with
    | none => rw [hurl] at hfp; exact absurd hfp (by simp)
    | some u' =>
      rw [hurl] at hfp
      by_cases hz : u' == ""
      · simp [hz] at hfp
      · simp only [hz, Bool.false_eq_true, if_false, Option.some.injEq,
          Prod.mk.injEq] at hfp
        obtain ⟨h1, h2⟩ := hfp
        refine ⟨p.2, ?_, ?_, ?_⟩
        · rw [← h1]; exact hp
        · rw [hurl, h2]
        · intro hu
          exact hz (by simp [h2, hu])
  · rintro ⟨fd, hmem, hurl, hne⟩
    refine ⟨(fid, fd), hmem, ?_⟩
    simp only [hurl]
    rw [if_neg (by simpa using hne)]

theorem nodup_keys_val_eq :
    ∀ (l : List (String × FeedData)) (a : String) (b1 b2 : FeedData),
      (l.map Prod.fst).Nodup → (a, b1) ∈ l → (a, b2) ∈ l → b1 = b2 := by
  intro l
  induction l with
  | nil =>
    intro a b1 b2 _ h1 _
    exact absurd h1 (List.not_mem_nil _)
  | cons hd tl ih =>
    intro a b1 b2 hnd h1 h2
    rw [List.map_cons, List.nodup_cons] at hnd
    rcases List.mem_cons.mp h1 with he1 | hm1
    · rcases List.mem_cons.mp h2 with he2 | hm2
      · rw [← he1] at he2
        exact (Prod.mk.injEq _ _ _ _).mp he2.symm |>.2
      · exfalso
        apply hnd.1
        have : a = hd.1 := congrArg Prod.fst he1.symm |>.symm
        rw [← this]
        exact List.mem_map_of_mem Prod.fst hm2
    · rcases List.mem_cons.mp h2 with he2 | hm2
      · exfalso
        apply hnd.1
        have : a = hd.1 := congrArg Prod.fst he2.symm |>.symm
        rw [← this]
        exact List.mem_map_of_mem Prod.fst hm1
      · exact ih a b1 b2 hnd.2 hm1 hm2

theorem processEntries_sublist (ft : Option String) (url now : String) :
    ∀ (entries : List Entry) (st : PDict),
      List.Sublist (processEntries ft url now entries st).1
        (entries.map (mkArticle ft url)) := by
  intro entries
  induction entries with
  | nil => intro st; simp [processEntries]
  | cons e0 rest ih =>
    intro st
    by_cases hp : is_article_processed st (entryTitle e0) (entryLink e0)
    · simp only [processEntries, hp, if_true, List.map_cons]
      exact List.Sublist.cons _ (ih st)
    · simp only [processEntries, hp, Bool.false_eq_true, if_false, List.map_cons]
      exact List.Sublist.cons₂ _ (ih _)

/-! ## Claim theorems -/

/-- Claim C1: the article fingerprint is deterministic — equal title and
link always yield the same hex digest — and depends on no entry field other
than title and link, so two entries that differ only in description,
summary, published or updated receive identical fingerprints. -/
theorem fingerprint_deterministic_title_link_only :
    (∀ t1 l1 t2 l2 : String, t1 = t2 → l1 = l2 →
      generate_article_hash t1 l1 = generate_article_hash t2 l2) ∧
    (∀ e1 e2 : Entry, e1.title = e2.title → e1.link = e2.link →
      entryHash e1 = entryHash e2) := by
  constructor
  · intro t1 l1 t2 l2 h1 h2
    rw [h1, h2]
  · intro e1 e2 h1 h2
    unfold entryHash entryTitle entryLink
    rw [h1, h2]

/-- Witness for C1 at two concrete entries equal in title and link but
different in description, summary, published and updated. -/
theorem fingerprint_deterministic_title_link_only_witness :
    wEntryD1.description ≠ wEntryD2.description ∧
    wEntryD1.published ≠ wEntryD2.published ∧
    entryHash wEntryD1 = entryHash wEntryD2 :=
  ⟨by decide, by decide,
    fingerprint_deterministic_title_link_only.2 wEntryD1 wEntryD2 rfl rfl⟩

/-- Claim C7: within a single feed's processing pass, no fingerprint is
passed to `mark_article_processed` more than once — the instrumented trace
of fingerprints handed to it is duplicate-free, for every entry list
(including lists with repeated (title, link) pairs) and every starting
dictionary. -/
theorem single_pass_never_double_marks (ft : Option String) (url now : String)
    (entries : List Entry) (st : PDict) :
    ((processEntries ft url now entries st).2.2).Nodup :=
  processEntries_marks_nodup ft url now entries st

/-- Claim C10: `generate_article_hash` digests `title ++ "|" ++ link`, so
any two (title, link) pairs whose concatenations coincide receive identical
fingerprints independently of any MD5 collision, and once the first such
article is marked processed the dedup check reports the second as already
seen. -/
theorem fingerprint_concatenation_collision (t1 l1 t2 l2 : String)
    (h : t1 ++ "|" ++ l1 = t2 ++ "|" ++ l2) :
    generate_article_hash t1 l1 = generate_article_hash t2 l2 ∧
    ∀ (st : PDict) (now : String),
      is_article_processed (mark_article_processed st t1 l1 now) t2 l2 = true := by
  have hh : generate_article_hash t1 l1 = generate_article_hash t2 l2 := by
    unfold generate_article_hash
    rw [h]
  refine ⟨hh, fun st now => ?_⟩
  unfold is_article_processed mark_article_processed
  rw [← hh]
  exact dictContains_insert_self st _ now

/-- Witness for C10: title `"a|b"` with link `"c"` and title `"a"` with
link `"b|c"` are distinct pairs with equal concatenations; they hash
identically and the second is reported as already processed once the first
is marked. -/
theorem fingerprint_concatenation_collision_witness :
    ("a|b", "c") ≠ (("a" : String), ("b|c" : String)) ∧
    generate_article_hash "a|b" "c" = generate_article_hash "a" "b|c" ∧
    is_article_processed
      (mark_article_processed [] "a|b" "c" "2024-01-01T00:00:00") "a" "b|c" = true :=
  ⟨by decide,
   (fingerprint_concatenation_collision "a|b" "c" "a" "b|c" (by decide)).1,
   (fingerprint_concatenation_collision "a|b" "c" "a" "b|c" (by decide)).2
     [] "2024-01-01T00:00:00"⟩

/-- Claim C3 (code bug): `cleanup_old_processed_articles` is supposed to
return the number of removed entries, but the source computes
`removed_count = len(self.processed_articles) - len(cleaned_articles)`
after `self.processed_articles` has already been reassigned to
`cleaned_articles`, so the function returns 0 on every input; concretely,
on an index holding one forty-day-old entry with a thirty-day retention it
removes that entry yet still returns 0. -/
theorem cleanup_removed_count_always_zero :
    (∀ (parseIso : String → Option Int) (now days : Int) (st : PDict),
      (cleanup_old_processed_articles parseIso now days st).2 = 0) ∧
    (cleanup_old_processed_articles decimalToInt 8640000000000 30
        [("h", "5184000000000")] = ([], 0)) := by
  constructor
  · intro parseIso now days st
    simp [cleanup_old_processed_articles]
  · rfl

/-- Counterexample to claim C9 as stated: with a thirty-day retention, an
entry whose recorded timestamp equals the cutoff `now − 30 days` exactly is
not older than the cutoff, yet `cleanup_old_processed_articles` removes it
(the source retains only entries strictly newer than the cutoff). -/
theorem cleanup_removes_boundary_timestamp :
    decimalToInt "6048000000000" = some ((8640000000000 : Int) - timedeltaDays 30) ∧
    ¬ (((8640000000000 : Int) - timedeltaDays 30) < (8640000000000 : Int) - timedeltaDays 30) ∧
    (cleanup_old_processed_articles decimalToInt 8640000000000 30
        [("h", "6048000000000")]).1 = [] :=
  ⟨by decide, lt_irrefl _, rfl⟩

/-- Claim C9 amended: `cleanup_old_processed_articles(days)` retains exactly
the entries whose recorded timestamp parses and is strictly newer than
`now − days`; entries older than or equal to the cutoff, and entries whose
timestamp is unparseable, are removed; the retained dictionary is the
persisted result. -/
theorem cleanup_retains_exactly_strictly_newer
    (parseIso : String → Option Int) (now days : Int) (st : PDict) (p : String × String) :
    p ∈ (cleanup_old_processed_articles parseIso now days st).1 ↔
      (p ∈ st ∧ ∃ d, parseIso p.2 = some d ∧ now - timedeltaDays days < d) := by
  simp only [cleanup_old_processed_articles, List.mem_filter]
  constructor
  · rintro ⟨hmem, hpred⟩
    refine ⟨hmem, ?_⟩
    cases hp : parseIso p.2 with
    | none => rw [hp] at hpred; exact absurd hpred (by simp)
    | some d =>
      rw [hp] at hpred
      exact ⟨d, rfl, by simpa using hpred⟩
  · rintro ⟨hmem, d, hp, hlt⟩
    exact ⟨hmem, by simp [hp, hlt]⟩

/-- Witness for amended C9: under a thirty-day retention with `now` at day
100, a ten-day-old entry is retained. -/
theorem cleanup_retains_exactly_strictly_newer_witness :
    ("new", "7776000000000") ∈ (cleanup_old_processed_articles decimalToInt
        8640000000000 30 [("old", "5184000000000"), ("new", "7776000000000")]).1 :=
  (cleanup_retains_exactly_strictly_newer decimalToInt 8640000000000 30
      [("old", "5184000000000"), ("new", "7776000000000")] ("new", "7776000000000")).mpr
    ⟨by decide, 7776000000000, by decide, by decide⟩

/-- Claim C4 amended: `fetch_feed` is total (no exception escapes it) and
returns `none` exactly on a raised network error or a non-200 status; on a
200 response it always returns the `feedparser` result — even when the body
is not parseable as a feed, in which case that result is a bozo feed
object, not `none`. -/
theorem fetch_feed_error_contract (parse : String → Feed) (net : NetResult) :
    (fetch_feed parse net = none ↔
      ((∃ msg, net = NetResult.failure msg) ∨
       (∃ status body, net = NetResult.response status body ∧ status ≠ 200))) ∧
    (∀ body, fetch_feed parse (NetResult.response 200 body) = some (parse body)) := by
  constructor
  · constructor
    · intro h
      cases net with
      | failure msg => exact Or.inl ⟨msg, rfl⟩
      | response status body =>
        refine Or.inr ⟨status, body, rfl, ?_⟩
        intro h200
        rw [h200] at h
        simp [fetch_feed] at h
    · intro h
      rcases h with ⟨msg, rfl⟩ | ⟨status, body, rfl, hne⟩
      · rfl
      · simp [fetch_feed, hne]
  · intro body
    simp [fetch_feed]

/-- Witness for amended C4: a raised network error and a 404 response both
yield `none`. -/
theorem fetch_feed_error_contract_witness :
    fetch_feed bozoParse (NetResult.failure "timeout") = none ∧
    fetch_feed bozoParse (NetResult.response 404 "nf") = none :=
  ⟨(fetch_feed_error_contract bozoParse (NetResult.failure "timeout")).1.mpr
      (Or.inl ⟨"timeout", rfl⟩),
   (fetch_feed_error_contract bozoParse (NetResult.response 404 "nf")).1.mpr
      (Or.inr ⟨404, "nf", rfl, by decide⟩)⟩

/-- Counterexample to claim C4 as stated: a 200 response whose body is not
parseable as a feed does not produce `none` — `feedparser.parse` yields a
bozo feed object with no entries, and `fetch_feed` returns it as `some`. -/
theorem fetch_feed_unparseable_body_yields_feed :
    fetch_feed bozoParse (NetResult.response 200 "<html>not a feed</html>")
      = some { ftitle := none, entries := [] } ∧
    fetch_feed bozoParse (NetResult.response 200 "<html>not a feed</html>") ≠ none := by
  constructor
  · rfl
  · simp [fetch_feed, bozoParse]

/-- Claim C2: if `check_all_feeds` runs to completion and is immediately
called again with the network unchanged (every feed returning the same
entries), the second call returns an empty mapping — every article seen in
the first pass is filtered out as already processed in the second. -/
theorem check_all_feeds_idempotent (parse : String → Feed) (net : String → NetResult)
    (now1 now2 : String) (feeds : List (String × FeedData)) (st : PDict) :
    (check_all_feeds parse net now2 feeds
        (check_all_feeds parse net now1 feeds st).2).1 = [] := by
  unfold check_all_feeds
  rw [checkLoop_pure_noop parse net now2 (feedsToTasks feeds) _
    fun fid url hmem =>
      checkLoop_pure_covers parse net now1 (feedsToTasks feeds) st fid url hmem]

/-- Claim C5: in the check cycle's await loop, a task that raises does not
abort the cycle — the returned mapping is exactly the results of the tasks
before the failing one followed by the results of the tasks after it
(computed from the dictionary state the failing task left behind), so the
failing feed contributes no entry while every other feed's articles still
appear. -/
theorem check_cycle_isolates_feed_failure
    (run : String → PDict → Except String (List Article) × PDict)
    (pre post : List (String × String)) (fid url : String)
    (st stF : PDict) (msg : String)
    (hfail : run url (checkLoop run pre st).2 = (Except.error msg, stF)) :
    (checkLoop run (pre ++ (fid, url) :: post) st).1
      = (checkLoop run pre st).1 ++ (checkLoop run post stF).1 := by
  rw [checkLoop_append]
  have hstep : checkLoop run ((fid, url) :: post) (checkLoop run pre st).2
      = checkLoop run post stF := by
    simp [checkLoop, hfail]
  rw [hstep]

/-- Witness for C5: with a task body that raises for URL "bad", feed "A"
scheduled before the failure and feed "B" scheduled after it still deliver
their articles, and the failing feed "F" contributes nothing. -/
theorem check_cycle_isolates_feed_failure_witness :
    (checkLoop wRun ([("A", "a")] ++ ("F", "bad") :: [("B", "b")]) []).1
      = [("A", [wArticle]), ("B", [wArticle])] ∧
    (checkLoop wRun ([("A", "a")] ++ ("F", "bad") :: [("B", "b")]) []).1
      = (checkLoop wRun [("A", "a")] []).1 ++ (checkLoop wRun [("B", "b")] []).1 :=
  ⟨rfl,
   check_cycle_isolates_feed_failure wRun [("A", "a")] [("B", "b")] "F" "bad"
     [] [] "boom" rfl⟩

/-- Claim C6: the mapping returned by `check_all_feeds` has an entry for a
feed id exactly when that feed's awaited task produced at least one new
article this cycle; feeds with zero new articles are omitted rather than
present with an empty list, and feeds with a missing or empty URL never
appear in the mapping. -/
theorem check_all_feeds_mapping_membership (parse : String → Feed)
    (net : String → NetResult) (now : String) (feeds : List (String × FeedData))
    (st : PDict) :
    (∀ p ∈ (check_all_feeds parse net now feeds st).1, p.2 ≠ []) ∧
    (∀ fid arts, (fid, arts) ∈ (check_all_feeds parse net now feeds st).1 ↔
      ((fid, arts) ∈ (rawLoop (pureRun parse net now) (feedsToTasks feeds) st).1 ∧
        arts ≠ [])) ∧
    ((feeds.map Prod.fst).Nodup →
      ∀ fid fd, (fid, fd) ∈ feeds → (fd.url = none ∨ fd.url = some "") →
        ∀ arts, (fid, arts) ∉ (check_all_feeds parse net now feeds st).1) := by
  refine ⟨?_, ?_, ?_⟩
  · intro p hp
    unfold check_all_feeds at hp
    rw [(checkLoop_eq_filter (pureRun parse net now) (feedsToTasks feeds) st).1] at hp
    have hpr := (List.mem_filter.mp hp).2
    intro hnil
    rw [hnil] at hpr
    simp at hpr
  · intro fid arts
    unfold check_all_feeds
    rw [(checkLoop_eq_filter (pureRun parse net now) (feedsToTasks feeds) st).1,
      List.mem_filter]
    constructor
    · rintro ⟨hm, hp⟩
      refine ⟨hm, ?_⟩
      intro hnil
      simp [hnil] at hp
    · rintro ⟨hm, hne⟩
      refine ⟨hm, ?_⟩
      cases arts with
      | nil => exact absurd rfl hne
      | cons a l => rfl
  · intro hnd fid fd hmem hbad arts hres
    have hkey := checkLoop_keys (pureRun parse net now) (feedsToTasks feeds) st
      (fid, arts) hres
    rw [List.mem_map] at hkey
    obtain ⟨x, hx, hx1⟩ := hkey
    have hx1' : x.1 = fid := hx1
    have hx' : (fid, x.2) ∈ feedsToTasks feeds := by
      rw [← hx1']
      exact Prod.mk.eta ▸ hx
    obtain ⟨fd', hmem', hurl', hne'⟩ := (mem_feedsToTasks feeds fid x.2).mp hx'
    have heq : fd = fd' := nodup_keys_val_eq feeds fid fd fd' hnd hmem hmem'
    subst heq
    rcases hbad with h0 | h0
    · rw [h0] at hurl'
      exact Option.noConfusion hurl'
    · rw [h0] at hurl'
      exact hne' (Option.some.inj hurl').symm

/-- Witness for C6 at a concrete registry holding one feed with a usable
URL, one with no URL and one with an empty URL: neither of the latter two
appears in the returned mapping. -/
theorem check_all_feeds_mapping_membership_witness :
    (("bad", ([] : List Article)) ∉ (check_all_feeds wParse wNet "t" wFeeds []).1) ∧
    (("empty", [wArticle]) ∉ (check_all_feeds wParse wNet "t" wFeeds []).1) :=
  ⟨(check_all_feeds_mapping_membership wParse wNet "t" wFeeds []).2.2 (by decide)
      "bad" { url := none } (by decide) (Or.inl rfl) [],
   (check_all_feeds_mapping_membership wParse wNet "t" wFeeds []).2.2 (by decide)
      "empty" { url := some "" } (by decide) (Or.inr rfl) [wArticle]⟩

/-- Claim C8: for a fetched feed, `get_new_articles` builds article records
from at most the first `max_articles` entries, in the feed's native order
(the output is a sublist of the per-entry article records of the truncated
entry list, with no re-sorting), and each emitted article derives its
fields by the fallback chains: title else "No Title"; link else empty;
description else summary else empty; published else updated else empty;
feed title else "Unknown Feed". -/
theorem get_new_articles_truncation_order_fallbacks
    (parse : String → Feed) (net : String → NetResult) (now url : String)
    (max : Nat) (st : PDict) (feed : Feed)
    (h : fetch_feed parse (net url) = some feed) :
    (get_new_articles parse net now url max st).1.length ≤ max ∧
    List.Sublist (get_new_articles parse net now url max st).1
      ((feed.entries.take max).map (mkArticle feed.ftitle url)) ∧
    ∀ a ∈ (get_new_articles parse net now url max st).1,
      ∃ e ∈ feed.entries.take max,
        a.title = e.title.getD "No Title" ∧ a.link = e.link.getD "" ∧
        a.description = e.description.getD (e.summary.getD "") ∧
        a.published = e.published.getD (e.updated.getD "") ∧
        a.feed_title = feed.ftitle.getD "Unknown Feed" ∧ a.feed_url = url := by
  have hsub : List.Sublist (get_new_articles parse net now url max st).1
      ((feed.entries.take max).map (mkArticle feed.ftitle url)) := by
    rw [get_new_articles_some parse net now url max st feed h]
    exact processEntries_sublist feed.ftitle url now _ st
  refine ⟨?_, hsub, ?_⟩
  · calc (get_new_articles parse net now url max st).1.length
        ≤ ((feed.entries.take max).map (mkArticle feed.ftitle url)).length :=
          hsub.length_le
      _ = (feed.entries.take max).length := by simp
      _ ≤ max := by
          rw [List.length_take]
          exact min_le_left _ _
  · intro a ha
    have hmm : a ∈ (feed.entries.take max).map (mkArticle feed.ftitle url) :=
      hsub.subset ha
    rw [List.mem_map] at hmm
    obtain ⟨e, he, heq⟩ := hmm
    subst heq
    exact ⟨e, he, rfl, rfl, rfl, rfl, rfl, rfl⟩

/-- Witness for C8 at a concrete two-entry feed exercising both sides of
every fallback chain. -/
theorem get_new_articles_truncation_order_fallbacks_witness :
    fetch_feed wParse (wNet "u") = some wFeed ∧
    ((get_new_articles wParse wNet "t" "u" 10 []).1.length ≤ 10 ∧
     List.Sublist (get_new_articles wParse wNet "t" "u" 10 []).1
       ((wFeed.entries.take 10).map (mkArticle wFeed.ftitle "u")) ∧
     ∀ a ∈ (get_new_articles wParse wNet "t" "u" 10 []).1,
       ∃ e ∈ wFeed.entries.take 10,
         a.title = e.title.getD "No Title" ∧ a.link = e.link.getD "" ∧
         a.description = e.description.getD (e.summary.getD "") ∧
         a.published = e.published.getD (e.updated.getD "") ∧
         a.feed_title = wFeed.ftitle.getD "Unknown Feed" ∧ a.feed_url = "u") :=
  ⟨rfl, get_new_articles_truncation_order_fallbacks wParse wNet "t" "u" 10 [] wFeed rfl⟩

end RSSSummary
